import Mathlib

/- Formal model of `assets/imdb.js` (and its guarded variant), a browser
client that expands a search term into a bounded list of probe queries,
fetches IMDb suggestion payloads over JSONP with per-request and global
timeouts, and aggregates the raw items into a deduplicated, rank-sorted
catalog.

Modelling conventions:
* JS numbers are modelled as `Nat`/`Int`; `Math.round(done/total*100)` is
  modelled as exact rational rounding (round half up), which agrees with
  the floating-point computation except possibly at exact half points,
  none of which are relevant to the statements proved here.
* Optional / possibly-absent JS fields are `Option`s; JS falsiness of a
  present string (`""`) or number (`0`) is handled by explicit helpers
  (`truthyStr`, `truthyInt`).
* The browser event loop is single threaded, so the observable behaviour
  of `loadAll` is a function of how many queries the workers claim before
  the global-deadline flag is observed; that count is the `budget`
  parameter below.  Every interleaving of the real worker pool yields the
  progress sequence of some budget, and the per-completion progress values
  depend only on the completion count, not on the interleaving.
-/

namespace ImdbApp

/-- CONFIG object of the source (safe defaults). -/
structure Config where
  maxQueriesSearch : Nat
  maxQueriesDiscover : Nat
  concurrency : Nat
  perRequestTimeoutMs : Nat
  globalTimeoutMs : Nat
  interRequestDelayMs : Nat
  historyLimit : Nat
deriving Repr, DecidableEq

/-- The concrete CONFIG constant from the source. -/
def CONFIG : Config :=
  { maxQueriesSearch := 40
  , maxQueriesDiscover := 40
  , concurrency := 6
  , perRequestTimeoutMs := 2500
  , globalTimeoutMs := 12000
  , interRequestDelayMs := 30
  , historyLimit := 15 }

/-! ## JSONP callback naming -/

/-- Is `c` a lowercase ASCII letter or a digit (the class `[a-z0-9]`)? -/
def isLowerAlnum (c : Char) : Bool :=
  (decide ('a' ≤ c) && decide (c ≤ 'z')) || (decide ('0' ≤ c) && decide (c ≤ '9'))

/-- `q.toLowerCase()` of the source, modelled characterwise. -/
def toLowerJS (s : String) : String := ⟨s.data.map Char.toLower⟩

/-- `.replace(a regex matching every character outside a-z0-9, an underscore)`
applied to a string. -/
def underscoreNonAlnum (s : String) : String :=
  ⟨s.data.map (fun c => if isLowerAlnum c then c else '_')⟩

/-- `jsonpCallbackName` of the source:
`"imdb$" + q.toLowerCase().replace(every char outside a-z0-9, an underscore)`. -/
def jsonpCallbackName (q : String) : String :=
  "imdb$" ++ underscoreNonAlnum (toLowerJS q)

/-- The callback name as the spec describes it (for comparison only):
`suggest$` followed by the query lowercased with everything except
alphanumeric characters removed. -/
def specCallbackName (q : String) : String :=
  "suggest$" ++ ⟨(q.data.map Char.toLower).filter isLowerAlnum⟩

/-! ## Query expansion -/

/-- The 26 single-letter strings pushed by iterating the string of
lowercase letters in `expandQueries`. -/
def lettersStr : List String :=
  "abcdefghijklmnopqrstuvwxyz".data.map (fun c => ⟨[c]⟩)

/-- The 10 single-digit strings pushed by iterating the digit string in
`expandQueries`. -/
def digitsStr : List String :=
  "0123456789".data.map (fun c => ⟨[c]⟩)

/-- `[...new Set(q)]`: deduplication preserving first-seen order
(JS `Set` iterates in insertion order). -/
def dedupFirst (seen : List String) : List String → List String
  | [] => []
  | x :: xs => if x ∈ seen then dedupFirst seen xs else x :: dedupFirst (x :: seen) xs

/-- `expandQueries(base, useVariations)` of the source.  A non-empty
`base` is truthy; an empty one selects discovery mode. -/
def expandQueries (base : String) (useVariations : Bool) : List String :=
  if base = "" then
    (dedupFirst []
      (["the", "new", "best", "top", "movie", "series", "2024", "2025"] ++ lettersStr)).take
      CONFIG.maxQueriesDiscover
  else
    (dedupFirst []
      (base ::
        (if useVariations then
          [base ++ " movie", base ++ " series", base ++ " season"]
            ++ lettersStr.map (fun c => base ++ " " ++ c)
            ++ digitsStr.map (fun d => base ++ " " ++ d)
        else []))).take CONFIG.maxQueriesSearch

/-! ## Raw payload data model -/

/-- The optional image descriptor `it.i` of a raw item; each field may be
absent, and a present field may still be falsy (`""` / `0`). -/
structure ImageInfo where
  imageUrl : Option String
  width : Option Int
  height : Option Int
deriving Repr, DecidableEq

/-- A loosely typed raw item from a suggestion payload; every field is
optional and must be read defensively. -/
structure RawItem where
  id : Option String
  l : Option String
  q : Option String
  y : Option Int
  rank : Option Int
  i : Option ImageInfo
deriving Repr, DecidableEq

/-- A JSONP payload `{ d?: RawItem[] }`; `d` may be absent (or not an
array), and an element of `d` may be a non-object (`none`). -/
structure RawSuggestion where
  d : Option (List (Option RawItem))
deriving Repr, DecidableEq

/-! ## SuggestFetcher (`loadSuggest`) -/

/-- One settlement-relevant event for a pending JSONP request: the
per-request timer firing, the script element erroring, or the dynamically
named callback being invoked (`none` payload = absent or falsy argument). -/
inductive TransportEvent where
  | timerFire : TransportEvent
  | scriptError : TransportEvent
  | callbackInvoke : Option RawSuggestion → TransportEvent
deriving Repr, DecidableEq

/-- The value `finish` is called with for each transport event: the timer
and `script.onerror` pass `null`; the callback passes `data || null`. -/
def finishValue : TransportEvent → Option RawSuggestion
  | TransportEvent.timerFire => none
  | TransportEvent.scriptError => none
  | TransportEvent.callbackInvoke d => d

/-- Did the event deliver an actual (truthy) payload? -/
def isSuccessEvent : TransportEvent → Bool
  | TransportEvent.callbackInvoke (some _) => true
  | _ => false

/-- `loadSuggest` resolution as a function of the arrival-ordered transport
events: the `done` flag makes the first `finish` call win and every later
event a no-op, and the promise only ever resolves (the executor never
rejects).  `none` means no event arrived, which cannot happen in the
source because the timer is always scheduled. -/
def loadSuggest (events : List TransportEvent) : Option (Option RawSuggestion) :=
  match events with
  | [] => none
  | e :: _ => some (finishValue e)

/-! ## WorkerPool (`loadAll`) -/

/-- `Math.round((done / total) * 100)` as exact round-half-up rational
rounding of `100 * done / total`. -/
def pctRound (done total : Nat) : Nat := (200 * done + total) / (2 * total)

/-- The items a settled fetch contributes to `results`: `data.d` spread in
when `data` is truthy and `d` is an array, nothing otherwise. -/
def fetchContribution (data : Option RawSuggestion) : List (Option RawItem) :=
  match data with
  | some s =>
    match s.d with
    | some items => items
    | none => []
  | none => []

/-- Worker loop of `loadAll`: each iteration claims the next query (while
the cancellation flag is unset, modelled by a positive remaining claim
`budget`), lets the fetch settle, appends its contribution, increments the
`done` counter, and emits `round(done/total*100)`.  Completions are
sequenced by the single-threaded event loop; the emitted percentages
depend only on the completion count, so this sequential claim-order model
produces the exact progress sequence of every real interleaving with the
same number of claims. -/
def loadAllGo (fetch : String → Option RawSuggestion) (total : Nat) :
    List String → Nat → Nat → List (Option RawItem) × List Nat
  | [], _, _ => ([], [])
  | _ :: _, 0, _ => ([], [])
  | qq :: rest, b + 1, done =>
    let items := fetchContribution (fetch qq)
    let r := loadAllGo fetch total rest b (done + 1)
    (items ++ r.1, pctRound (done + 1) total :: r.2)

/-- `loadAll(queries, onProgress)`: returns the aggregated raw items and
the list of percentages delivered to `onProgress`, given the per-query
fetch results and the number of claims made before the global-deadline
flag is observed (`budget ≥ queries.length` means the deadline never cut
work short). -/
def loadAll (fetch : String → Option RawSuggestion) (queries : List String)
    (budget : Nat) : List (Option RawItem) × List Nat :=
  loadAllGo fetch queries.length queries budget 0

/-- `Math.min(CONFIG.concurrency, queries.length)`: the number of workers
spawned by `loadAll`. -/
def threads (queryCount : Nat) : Nat := min CONFIG.concurrency queryCount

/-- Lockstep timing of the worker pool when every fetch runs to its full
per-request timeout `T` (resolving `null`): all `c` workers claim in
synchronized waves, wave `k` starting at time `k * (T + D)` (fetch time
plus inter-request delay), and a wave only starts while the global
deadline `G` has not yet fired.  `lockstepGo n c T D G fuel k idx` returns
how many of the `n` queries are ever claimed (claimed fetches always run
to completion and report progress, even past the deadline). -/
def lockstepGo (n c T D G : Nat) : Nat → Nat → Nat → Nat
  | 0, _, idx => idx
  | fuel + 1, k, idx =>
    if n ≤ idx ∨ G ≤ k * (T + D) then idx
    else lockstepGo n c T D G fuel (k + 1) (min n (idx + c))

/-- Number of queries claimed (hence completed, hence reported in
progress) by the pool under lockstep all-timeout timing. -/
def lockstepClaims (n c T D G : Nat) : Nat := lockstepGo n c T D G (n + 1) 0 0

/-! ## Aggregator/Normalizer (`normalize`) -/

/-- JS `x || null` for an optional string: a present empty string is falsy
and becomes `null`. -/
def truthyStr : Option String → Option String
  | some s => if s = "" then none else some s
  | none => none

/-- JS `x || null` for an optional number: a present `0` is falsy and
becomes `null`. -/
def truthyInt : Option Int → Option Int
  | some z => if z = 0 then none else some z
  | none => none

/-- The `href` derived from an id. -/
def hrefOf (id : String) : String := "https://www.imdb.com/title/" ++ id ++ "/"

/-- The regex test `/^tt/.test(id)`: the first two characters are `tt`. -/
def startsWithTT (s : String) : Bool := s.data.take 2 = ['t', 't']

/-- A normalized entry as built by `normalize`. -/
structure Entry where
  id : String
  title : String
  kind : String
  year : Option Int
  rank : Option Int
  href : String
  image_url : Option String
  image_width : Option Int
  image_height : Option Int
deriving Repr, DecidableEq

/-- The value `normalize` returns: `{ len, titles }`. -/
structure Catalog where
  len : Nat
  titles : List Entry
deriving Repr, DecidableEq

/-- Body of the first `normalize` loop for one element: skip non-objects
(`none`), skip items whose `id` is absent or does not start with `"tt"`
(an empty id is falsy and also fails the prefix test), and otherwise build
the entry, forcing image fields to `null` unless `wantImages`, and mapping
falsy present image fields to `null` via `(x && y) || null`. -/
def entryOfItem (wantImages : Bool) : Option RawItem → Option Entry
  | none => none
  | some it =>
    match it.id with
    | none => none
    | some id =>
      if startsWithTT id then
        some
          { id := id
          , title := it.l.getD ""
          , kind := it.q.getD ""
          , year := it.y
          , rank := it.rank
          , href := hrefOf id
          , image_url := if wantImages then truthyStr (it.i.bind (fun im => im.imageUrl)) else none
          , image_width := if wantImages then truthyInt (it.i.bind (fun im => im.width)) else none
          , image_height := if wantImages then truthyInt (it.i.bind (fun im => im.height)) else none }
      else none

/-- The `out` list of `normalize`: the first loop over `items`. -/
def preEntries (wantImages : Bool) (items : List (Option RawItem)) : List Entry :=
  items.filterMap (entryOfItem wantImages)

/-- The dedup loop of `normalize` (`seen` set plus `unique` list), keeping
the first occurrence of each id. -/
def dedupByIdGo (seen : List String) : List Entry → List Entry
  | [] => []
  | x :: xs =>
    if x.id ∈ seen then dedupByIdGo seen xs
    else x :: dedupByIdGo (x.id :: seen) xs

/-- `normalize`'s dedup-by-id pass. -/
def dedupById (l : List Entry) : List Entry := dedupByIdGo [] l

/-- The sort key `a.rank ?? Number.POSITIVE_INFINITY`: a missing rank
sorts as plus infinity (`⊤`). -/
def rankKey (e : Entry) : WithTop Int :=
  match e.rank with
  | some r => (r : WithTop Int)
  | none => ⊤

/-- The comparator `(a, b) => ra - rb` as a non-strict order test.  Two
infinite keys compare `NaN`, which the engine treats as "equal"; a stable
sort therefore leaves their relative order unchanged, exactly as `≤` on
`WithTop Int` does under a stable merge sort. -/
def rankLe (a b : Entry) : Bool := decide (rankKey a ≤ rankKey b)

/-- `normalize(items, wantImages)`: filter/map, dedup by id, stable sort
by rank (nulls last), and package as `{ len, titles }`.
`Array.prototype.sort` is stable, modelled by `List.mergeSort`. -/
def normalize (items : List (Option RawItem)) (wantImages : Bool) : Catalog :=
  let unique := dedupById (preEntries wantImages items)
  let sorted := unique.mergeSort rankLe
  { len := sorted.length, titles := sorted }

/-- The raw item a normalized entry corresponds to (used for the
normalize round-trip property): every entry field put back in its raw
slot, the image fields packed into an image descriptor. -/
def rawEquiv (e : Entry) : RawItem :=
  { id := some e.id
  , l := some e.title
  , q := some e.kind
  , y := e.year
  , rank := e.rank
  , i := some { imageUrl := e.image_url, width := e.image_width, height := e.image_height } }

/-! ## Rendering (`renderCards`) -/

/-- One card of `renderCards` (template literal written as explicit
concatenation; `t.image_url ?`, `t.kind ||`, `t.year ?` are truthiness
tests, `t.rank != null` is a null test). -/
def renderCard (t : Entry) : String :=
  let img := match truthyStr t.image_url with
    | some u => "<img src=\"" ++ u ++ "\" alt=\"\">"
    | none => "<img alt=\"\" />"
  let yearBadge := match t.year with
    | some y => if y = 0 then "" else "<span class=\"badge\">" ++ toString y ++ "</span>"
    | none => ""
  let rankBadge := match t.rank with
    | some r => "<span class=\"badge\">rank " ++ toString r ++ "</span>"
    | none => ""
  "\n        <article class=\"card\">\n          " ++ img
    ++ "\n          <div class=\"meta\">\n            <a class=\"title\" href=\""
    ++ t.href ++ "\" target=\"_blank\" rel=\"noopener\">" ++ t.title
    ++ "</a>\n            <div>\n              <span class=\"badge\">"
    ++ (if t.kind = "" then "title" else t.kind) ++ "</span>\n              "
    ++ yearBadge ++ "\n              " ++ rankBadge
    ++ "\n            </div>\n            <small>" ++ t.id
    ++ "</small>\n          </div>\n        </article>\n      "

/-- `renderCards(model)`: the no-results placeholder for an empty catalog,
else the joined cards. -/
def renderCards (model : Catalog) : String :=
  if model.titles.length = 0 then "<p>No results.</p>"
  else String.join (model.titles.map renderCard)

/-! ## SessionController (`onSubmit`) and persistence -/

/-- Session metadata `{ query, variations, images, timestamp }`. -/
structure Meta where
  query : String
  variations : Bool
  images : Bool
  timestamp : Nat
deriving Repr, DecidableEq

/-- One history record `{ ...meta, results }`. -/
structure HistEntry where
  query : String
  variations : Bool
  images : Bool
  timestamp : Nat
  results : Nat
deriving Repr, DecidableEq

/-- The three localStorage slots the app writes. -/
structure Store where
  lastResults : Option Catalog
  lastMeta : Option Meta
  history : List HistEntry
deriving Repr, DecidableEq

/-- The dedup key of `pushHistory`:
`query + "::" + (variations ? "1" : "0") + "::" + (images ? "1" : "0")`. -/
def histKey (h : HistEntry) : String :=
  h.query ++ "::" ++ (if h.variations then "1" else "0")
    ++ "::" ++ (if h.images then "1" else "0")

/-- The dedup-and-cap loop of `pushHistory`: walk the prepended history,
keep the first record per key, and break once `limit` records are kept. -/
def pushHistoryLoop (limit : Nat) :
    List HistEntry → List String → List HistEntry → List HistEntry
  | [], _, out => out
  | h :: hs, seen, out =>
    if histKey h ∈ seen then
      if limit ≤ out.length then out else pushHistoryLoop limit hs seen out
    else
      let out' := out ++ [h]
      if limit ≤ out'.length then out' else pushHistoryLoop limit hs (histKey h :: seen) out'

/-- `pushHistory(entry)`: prepend, dedup by key, cap at the history
limit. -/
def pushHistory (entry : HistEntry) (hist : List HistEntry) : List HistEntry :=
  pushHistoryLoop CONFIG.historyLimit (entry :: hist) [] []

/-- `autosave(meta)`: persist the current catalog, the metadata, and a
history record carrying the result count.  The underlying storage writes
catch their own exceptions, so autosave never throws. -/
def autosave (meta : Meta) (lastJSON : Catalog) (store : Store) : Store :=
  { lastResults := some lastJSON
  , lastMeta := some meta
  , history := pushHistory
      { query := meta.query, variations := meta.variations, images := meta.images
      , timestamp := meta.timestamp, results := lastJSON.len } store.history }

/-- JS `String.prototype.trim`: strip leading and trailing whitespace. -/
def trimJS (s : String) : String :=
  ⟨((s.data.dropWhile Char.isWhitespace).reverse.dropWhile Char.isWhitespace).reverse⟩

/-- The status line `Found N unique titles (capped)`. -/
def statusFound (n : Nat) : String :=
  "Found " ++ toString n ++ " unique titles (capped)"

/-- The form state `onSubmit` reads from the DOM. -/
structure DomInput where
  q : String
  variations : Bool
  images : Bool
deriving Repr, DecidableEq

/-- The page state `onSubmit` mutates: the single-flight flag, the status
line, the rendered results, the in-memory catalog, and localStorage. -/
structure AppState where
  busy : Bool
  status : String
  resultsHtml : String
  lastJSON : Catalog
  store : Store
deriving Repr, DecidableEq

/-- How the awaited pipeline settles: normally (with the per-query fetch
results and the claim budget the global deadline allowed), or with an
uncaught exception (the `catch` branch). -/
inductive PipelineOutcome where
  | ok : (String → Option RawSuggestion) → Nat → PipelineOutcome
  | exn : PipelineOutcome

/-- `onSubmit` as a list of the states the page passes through: the
single-flight guard returns at once leaving the state untouched; otherwise
the synchronous prefix sets `busy`, the loading status and the cleared
results pane, and the continuation after the awaited pipeline produces the
final state with `busy` released in the `finally` block.  The transient
per-progress status updates between the two recorded states are overwritten
by the final status and are not recorded. -/
def onSubmitTrace (st : AppState) (inp : DomInput) (out : PipelineOutcome)
    (now : Nat) : List AppState :=
  if st.busy then [st]
  else
    let stBusy : AppState :=
      { st with busy := true, status := "Loading…", resultsHtml := "" }
    match out with
    | PipelineOutcome.exn =>
      [stBusy,
        { stBusy with
            status := "Error while loading data."
          , resultsHtml := "<p>Failed to load.</p>"
          , busy := false }]
    | PipelineOutcome.ok fetch budget =>
      let qTrim := trimJS inp.q
      let qs := expandQueries qTrim inp.variations
      let raw := loadAll fetch qs budget
      let model := normalize raw.1 inp.images
      let meta : Meta :=
        { query := qTrim, variations := inp.variations, images := inp.images, timestamp := now }
      [stBusy,
        { stBusy with
            lastJSON := model
          , resultsHtml := renderCards model
          , status := statusFound model.len
          , store := autosave meta model st.store
          , busy := false }]

/-- Shape facts holding for every entry `normalize` emits: the id passed
the prefix test, the href is derived from the id, and each image field is
a fixed point of the truthiness coercion (absent when `wantImages` is
false). -/
def NormalizedShape (w : Bool) (e : Entry) : Prop :=
  startsWithTT e.id = true
  ∧ e.href = hrefOf e.id
  ∧ (if w then truthyStr e.image_url else none) = e.image_url
  ∧ (if w then truthyInt e.image_width else none) = e.image_width
  ∧ (if w then truthyInt e.image_height else none) = e.image_height

/-- The suffixes appended to the base term by `expandQueries` with
variations on, in push order. -/
def variationSuffixes : List String :=
  [" movie", " series", " season"]
    ++ lettersStr.map (fun c => " " ++ c)
    ++ digitsStr.map (fun d => " " ++ d)

/-! # Theorems -/

/-! ## Small facts about the helpers -/

theorem truthyStr_idem (x : Option String) : truthyStr (truthyStr x) = truthyStr x := by
  cases x with
  | none => rfl
  | some s =>
    by_cases h : s = "" <;> simp [truthyStr, h]

theorem truthyInt_idem (x : Option Int) : truthyInt (truthyInt x) = truthyInt x := by
  cases x with
  | none => rfl
  | some z =>
    by_cases h : z = 0 <;> simp [truthyInt, h]

theorem pctRound_mono {d1 d2 : Nat} (t : Nat) (h : d1 ≤ d2) :
    pctRound d1 t ≤ pctRound d2 t :=
  Nat.div_le_div_right (by omega)

theorem pctRound_self {n : Nat} (h : 0 < n) : pctRound n n = 100 := by
  unfold pctRound
  rw [show 200 * n + n = n + 2 * n * 100 by ring,
    Nat.add_mul_div_left _ _ (by omega), Nat.div_eq_of_lt (by omega)]

/-! ## WorkerPool lemmas -/

theorem loadAllGo_snd (fetch : String → Option RawSuggestion) (t : Nat) :
    ∀ (qs : List String) (b d : Nat),
      (loadAllGo fetch t qs b d).2 =
        (List.range (min qs.length b)).map (fun k => pctRound (d + 1 + k) t) := by
  intro qs
  induction qs with
  | nil => intro b d; simp [loadAllGo]
  | cons q qs ih =>
    intro b d
    cases b with
    | zero => simp [loadAllGo]
    | succ b =>
      show pctRound (d + 1) t :: (loadAllGo fetch t qs b (d + 1)).2 = _
      rw [ih b (d + 1)]
      rw [show min (q :: qs).length (b + 1) = min qs.length b + 1 by
        simp [List.length_cons, Nat.succ_min_succ]]
      rw [List.range_succ_eq_map, List.map_cons, List.map_map]
      congr 1
      apply List.map_congr_left
      intro k hk
      simp only [Function.comp_apply]
      congr 1
      omega

theorem loadAll_snd (fetch : String → Option RawSuggestion) (qs : List String) (b : Nat) :
    (loadAll fetch qs b).2 =
      (List.range (min qs.length b)).map (fun k => pctRound (k + 1) qs.length) := by
  rw [loadAll, loadAllGo_snd]
  apply List.map_congr_left
  intro k hk
  congr 1
  omega

theorem loadAllGo_fst_none (t : Nat) :
    ∀ (qs : List String) (b d : Nat),
      (loadAllGo (fun _ => none) t qs b d).1 = [] := by
  intro qs
  induction qs with
  | nil => intro b d; simp [loadAllGo]
  | cons q qs ih =>
    intro b d
    cases b with
    | zero => simp [loadAllGo]
    | succ b =>
      show fetchContribution none ++ (loadAllGo (fun _ => none) t qs b (d + 1)).1 = []
      rw [ih b (d + 1)]
      rfl

theorem normalize_nil (w : Bool) : normalize [] w = { len := 0, titles := [] } := by
  simp [normalize, preEntries, dedupById, dedupByIdGo, List.mergeSort_nil]

/-! ## Dedup lemmas -/

theorem dedupByIdGo_sublist : ∀ (l : List Entry) (seen : List String),
    (dedupByIdGo seen l).Sublist l
  | [], _ => List.Sublist.refl []
  | x :: xs, seen => by
    unfold dedupByIdGo
    split
    · exact (dedupByIdGo_sublist xs seen).trans (List.sublist_cons_self x xs)
    · exact List.Sublist.cons₂ x (dedupByIdGo_sublist xs (x.id :: seen))

theorem mem_dedupByIdGo_not_seen : ∀ (l : List Entry) (seen : List String) (e : Entry),
    e ∈ dedupByIdGo seen l → e.id ∉ seen := by
  intro l
  induction l with
  | nil => intro seen e he; simp [dedupByIdGo] at he
  | cons x xs ih =>
    intro seen e he
    unfold dedupByIdGo at he
    split at he
    · exact ih seen e he
    · rcases List.mem_cons.mp he with h | h
      · subst h; assumption
      · intro hmem
        exact ih (x.id :: seen) e h (List.mem_cons_of_mem _ hmem)

theorem dedupByIdGo_pairwise : ∀ (l : List Entry) (seen : List String),
    (dedupByIdGo seen l).Pairwise (fun a b => a.id ≠ b.id) := by
  intro l
  induction l with
  | nil => intro seen; simp [dedupByIdGo]
  | cons x xs ih =>
    intro seen
    unfold dedupByIdGo
    split
    · exact ih seen
    · refine List.Pairwise.cons ?_ (ih (x.id :: seen))
      intro e he
      have := mem_dedupByIdGo_not_seen xs (x.id :: seen) e he
      intro hxe
      exact this (by rw [← hxe]; exact List.mem_cons_self _ _)

theorem find?_of_mem_dedupByIdGo : ∀ (l : List Entry) (seen : List String) (e : Entry),
    e ∈ dedupByIdGo seen l → l.find? (fun a => a.id == e.id) = some e := by
  intro l
  induction l with
  | nil => intro seen e he; simp [dedupByIdGo] at he
  | cons x xs ih =>
    intro seen e he
    unfold dedupByIdGo at he
    split at he
    case isTrue hx =>
      have hne : e.id ∉ seen := mem_dedupByIdGo_not_seen xs seen e he
      have hx' : ¬ (x.id == e.id) = true := by
        simp only [beq_iff_eq]
        intro hcontra
        exact hne (hcontra ▸ hx)
      rw [@List.find?_cons_of_neg _ (fun a => a.id == e.id) x xs hx']
      exact ih seen e he
    case isFalse hx =>
      rcases List.mem_cons.mp he with h | h
      · subst h
        exact @List.find?_cons_of_pos _ (fun a => a.id == e.id) e xs (by simp)
      · have hne : e.id ∉ x.id :: seen := mem_dedupByIdGo_not_seen xs (x.id :: seen) e h
        have hx' : ¬ (x.id == e.id) = true := by
          simp only [beq_iff_eq]
          intro hcontra
          exact hne (by rw [← hcontra]; exact List.mem_cons_self _ _)
        rw [@List.find?_cons_of_neg _ (fun a => a.id == e.id) x xs hx']
        exact ih (x.id :: seen) e h

theorem dedupByIdGo_eq_self : ∀ (l : List Entry) (seen : List String),
    l.Pairwise (fun a b => a.id ≠ b.id) → (∀ x ∈ l, x.id ∉ seen) →
    dedupByIdGo seen l = l := by
  intro l
  induction l with
  | nil => intro seen _ _; rfl
  | cons x xs ih =>
    intro seen hpw hseen
    unfold dedupByIdGo
    rw [if_neg (hseen x (List.mem_cons_self _ _))]
    congr 1
    refine ih (x.id :: seen) (List.Pairwise.of_cons hpw) ?_
    intro y hy
    intro hmem
    rcases List.mem_cons.mp hmem with h | h
    · exact (List.rel_of_pairwise_cons hpw hy) h.symm
    · exact hseen y (List.mem_cons_of_mem _ hy) h

/-! ## Shape of normalized entries -/

theorem shape_of_mem_preEntries {w : Bool} {items : List (Option RawItem)} {e : Entry}
    (h : e ∈ preEntries w items) : NormalizedShape w e := by
  unfold preEntries at h
  obtain ⟨a, _, ha⟩ := List.mem_filterMap.mp h
  cases a with
  | none => simp [entryOfItem] at ha
  | some it =>
    cases hid : it.id with
    | none => simp [entryOfItem, hid] at ha
    | some id =>
      simp only [entryOfItem, hid] at ha
      by_cases hpre : startsWithTT id = true
      · rw [if_pos hpre] at ha
        have he := Option.some.inj ha
        subst he
        unfold NormalizedShape
        refine ⟨hpre, rfl, ?_, ?_, ?_⟩ <;>
          cases w <;> simp [truthyStr_idem, truthyInt_idem]
      · rw [if_neg hpre] at ha; simp at ha

theorem rankKey_eq_top_iff (e : Entry) : rankKey e = ⊤ ↔ e.rank = none := by
  cases hr : e.rank with
  | none => simp [rankKey, hr]
  | some r => simp [rankKey, hr]

theorem rankLe_trans : ∀ a b c : Entry,
    rankLe a b = true → rankLe b c = true → rankLe a c = true := by
  intro a b c hab hbc
  simp only [rankLe, decide_eq_true_eq] at hab hbc ⊢
  exact le_trans hab hbc

theorem rankLe_total : ∀ a b : Entry, (rankLe a b || rankLe b a) = true := by
  intro a b
  simp only [rankLe, Bool.or_eq_true, decide_eq_true_eq]
  exact le_total _ _

/-- Stability of the rank sort: the elements sharing one rank key appear
in the sorted output in their pre-sort relative order. -/
theorem mergeSort_filter_rank (l : List Entry) (r : WithTop Int) :
    (l.mergeSort rankLe).filter (fun e => decide (rankKey e = r)) =
      l.filter (fun e => decide (rankKey e = r)) := by
  have hpw : (l.filter (fun e => decide (rankKey e = r))).Pairwise
      (fun a b => rankLe a b = true) := by
    apply List.pairwise_of_forall_mem_list
    intro a ha b hb
    have ha' := (List.mem_filter.mp ha).2
    have hb' := (List.mem_filter.mp hb).2
    simp only [decide_eq_true_eq] at ha' hb'
    simp only [rankLe, decide_eq_true_eq, ha', hb', le_refl]
  have hstab := List.sublist_mergeSort rankLe_trans rankLe_total hpw
    (List.filter_sublist l)
  have h2 := hstab.filter (fun e => decide (rankKey e = r))
  rw [List.filter_filter] at h2
  simp only [Bool.and_self] at h2
  have hlen : ((l.mergeSort rankLe).filter (fun e => decide (rankKey e = r))).length =
      (l.filter (fun e => decide (rankKey e = r))).length :=
    ((List.mergeSort_perm l rankLe).filter _).length_eq
  exact (h2.eq_of_length hlen.symm).symm

/-! ## Facts about the titles normalize produces -/

theorem normalize_titles_def (items : List (Option RawItem)) (w : Bool) :
    (normalize items w).titles = (dedupById (preEntries w items)).mergeSort rankLe := rfl

theorem titles_pairwise_id (items : List (Option RawItem)) (w : Bool) :
    (normalize items w).titles.Pairwise (fun a b => a.id ≠ b.id) := by
  rw [normalize_titles_def]
  refine (List.Perm.pairwise_iff ?_ (List.mergeSort_perm _ rankLe)).mpr
    (dedupByIdGo_pairwise (preEntries w items) [])
  intro x y h
  exact h.symm

theorem mem_titles_mem_dedup {items : List (Option RawItem)} {w : Bool} {e : Entry}
    (h : e ∈ (normalize items w).titles) : e ∈ dedupById (preEntries w items) := by
  rw [normalize_titles_def] at h
  exact (List.mergeSort_perm _ rankLe).mem_iff.mp h

theorem titles_shape (items : List (Option RawItem)) (w : Bool) :
    ∀ e ∈ (normalize items w).titles, NormalizedShape w e := by
  intro e he
  have h1 := mem_titles_mem_dedup he
  have h2 : e ∈ preEntries w items := (dedupByIdGo_sublist _ _).subset h1
  exact shape_of_mem_preEntries h2

theorem titles_sorted (items : List (Option RawItem)) (w : Bool) :
    (normalize items w).titles.Pairwise (fun a b => rankLe a b = true) := by
  rw [normalize_titles_def]
  exact List.sorted_mergeSort rankLe_trans rankLe_total _

/-! ## Round-trip lemmas -/

theorem entry_roundtrip {w : Bool} {e : Entry} (h : NormalizedShape w e) :
    entryOfItem w (some (rawEquiv e)) = some e := by
  obtain ⟨h1, h2, h3, h4, h5⟩ := h
  cases e with
  | mk id title kind year rank href image_url image_width image_height =>
    simp only at h1 h2 h3 h4 h5
    simp only [entryOfItem, rawEquiv, h1, if_pos]
    simp [h2, h3, h4, h5, Option.bind]

theorem preEntries_map_rawEquiv {w : Bool} : ∀ (l : List Entry),
    (∀ e ∈ l, NormalizedShape w e) →
    preEntries w (l.map (fun e => some (rawEquiv e))) = l := by
  intro l
  induction l with
  | nil => intro _; rfl
  | cons e l ih =>
    intro hall
    have he := entry_roundtrip (hall e (List.mem_cons_self _ _))
    simp only [preEntries, List.map_cons, List.filterMap_cons, he]
    have := ih (fun x hx => hall x (List.mem_cons_of_mem _ hx))
    simp only [preEntries] at this
    rw [this]

/-! ## Query expansion lemmas -/

theorem dedupFirst_eq_self : ∀ (l : List String) (seen : List String),
    l.Nodup → (∀ x ∈ l, x ∉ seen) → dedupFirst seen l = l := by
  intro l
  induction l with
  | nil => intro seen _ _; rfl
  | cons x xs ih =>
    intro seen hnd hseen
    unfold dedupFirst
    rw [if_neg (hseen x (List.mem_cons_self _ _))]
    congr 1
    refine ih (x :: seen) (List.Nodup.of_cons hnd) ?_
    intro y hy hmem
    rcases List.mem_cons.mp hmem with h | h
    · exact (List.rel_of_pairwise_cons hnd hy) h.symm
    · exact hseen y (List.mem_cons_of_mem _ hy) h

theorem string_append_left_inj (base : String) {s t : String}
    (h : base ++ s = base ++ t) : s = t := by
  have hd : base.data ++ s.data = base.data ++ t.data := by
    rw [← String.data_append, ← String.data_append, h]
  exact String.ext (List.append_cancel_left hd)

theorem variation_list_nodup (base : String) :
    (base :: variationSuffixes.map (fun s => base ++ s)).Nodup := by
  refine List.Nodup.cons ?_ ?_
  · intro hmem
    obtain ⟨s, hs, heq⟩ := List.mem_map.mp hmem
    have hlen : (base ++ s).length = base.length + s.length := String.length_append base s
    have hpos : s.length ≠ 0 := by
      revert hs
      have : ∀ x ∈ variationSuffixes, x.length ≠ 0 := by decide
      intro hs
      exact this s hs
    rw [heq] at hlen
    omega
  · refine List.Nodup.map_on ?_ (by decide)
    intro x _ y _ hxy
    exact string_append_left_inj base hxy

/-! # Claim theorems -/

/-- Claim C2 counterexample: for the query `"A b"` the code registers the
callback `imdb$a_b`, while the spec's naming scheme would give
`suggest$ab`; the two disagree both in prefix and in the treatment of
non-alphanumeric characters. -/
theorem jsonpCallbackName_counterexample :
    jsonpCallbackName "A b" = "imdb$a_b"
    ∧ specCallbackName "A b" = "suggest$ab"
    ∧ jsonpCallbackName "A b" ≠ specCallbackName "A b" := by
  decide

/-- Claim C2 (amended): for every query string `q`, the registered (and
remotely invoked) callback name is `imdb$` followed by `q` with each
character lowercased and every character outside `a-z0-9` replaced by an
underscore; in particular the name always starts with `imdb$`. -/
theorem jsonpCallbackName_spec (q : String) :
    jsonpCallbackName q =
      "imdb$" ++ ⟨q.data.map (fun c =>
        if isLowerAlnum c.toLower then c.toLower else '_')⟩
    ∧ (jsonpCallbackName q).data.take 5 = "imdb$".data := by
  constructor
  · unfold jsonpCallbackName underscoreNonAlnum toLowerJS
    congr 1
    apply String.ext
    simp [List.map_map, Function.comp]
  · unfold jsonpCallbackName
    rw [String.data_append,
      show (5 : Nat) = "imdb$".data.length from rfl, List.take_left]

/-- Claim C10: even with `wantImages = true`, present-but-falsy image
fields are mapped to null: an item with an empty `imageUrl` and a zero
`width` yields an entry with null `image_url` and `image_width`, while
its truthy `height` is kept. -/
theorem normalize_falsy_image_fields :
    (normalize
      [some { id := some "tt0000001", l := some "Example", q := none, y := none
            , rank := some 1
            , i := some { imageUrl := some "", width := some 0, height := some 7 } }]
      true).titles =
      [{ id := "tt0000001", title := "Example", kind := "", year := none
       , rank := some 1
       , href := "https://www.imdb.com/title/tt0000001/"
       , image_url := none, image_width := none, image_height := some 7 }] := by
  simp [normalize, preEntries, List.filterMap, entryOfItem, dedupById, dedupByIdGo,
    List.mergeSort_singleton, truthyStr, truthyInt, hrefOf, Option.bind]

/-- Claim C9: with an empty query list `loadAll` returns an empty
aggregate immediately and delivers no progress events; and the number of
workers spawned is `min(CONFIG.concurrency, queries.length)`, hence capped
by the query count and by the configured concurrency. -/
theorem loadAll_empty_and_threads (fetch : String → Option RawSuggestion)
    (budget : Nat) (qs : List String) :
    loadAll fetch [] budget = ([], [])
    ∧ (loadAll fetch [] budget).2 = []
    ∧ threads qs.length = min CONFIG.concurrency qs.length
    ∧ threads qs.length ≤ qs.length
    ∧ threads qs.length ≤ CONFIG.concurrency := by
  refine ⟨rfl, rfl, rfl, ?_, ?_⟩
  · exact Nat.min_le_right _ _
  · exact Nat.min_le_left _ _

/-- Claim C8: once any transport event arrives (and the per-request timer
guarantees one), the fetcher's promise settles — the executor never
rejects — and every non-success event (timer, script error, callback with
an absent or falsy payload) settles it to null. -/
theorem loadSuggest_resolves (events : List TransportEvent) (h : events ≠ []) :
    (loadSuggest events).isSome = true
    ∧ (∀ e, events.head? = some e → isSuccessEvent e = false →
        loadSuggest events = some none) := by
  cases events with
  | nil => exact absurd rfl h
  | cons e rest =>
    refine ⟨rfl, ?_⟩
    intro e' he hs
    have he' : e = e' := by simpa using he
    subst he'
    cases e with
    | timerFire => rfl
    | scriptError => rfl
    | callbackInvoke d =>
      cases d with
      | none => rfl
      | some s => simp [isSuccessEvent] at hs

/-- Witness for the C8 theorem at the concrete event list `[timerFire]`. -/
theorem loadSuggest_resolves_witness :
    (loadSuggest [TransportEvent.timerFire]).isSome = true
    ∧ loadSuggest [TransportEvent.timerFire] = some none := by
  refine ⟨(loadSuggest_resolves [TransportEvent.timerFire] (by decide)).1, ?_⟩
  exact (loadSuggest_resolves [TransportEvent.timerFire] (by decide)).2
    TransportEvent.timerFire rfl rfl

/-- Claim C6: for every non-empty term, `expandQueries(term, false)` is
exactly `[term]`, and `expandQueries(term, true)` is the duplicate-free
40-element sequence `term`, `term movie`, `term series`, `term season`,
`term a` … `term z`, `term 0` … `term 9` in that order (deduplication and
the cap of 40 are both no-ops on it), so it starts with `term` and its
length is at most the configured cap. -/
theorem expandQueries_nonempty (base : String) (h : base ≠ "") :
    expandQueries base false = [base]
    ∧ expandQueries base true = base :: variationSuffixes.map (fun s => base ++ s)
    ∧ (expandQueries base true).Nodup
    ∧ (expandQueries base true).length ≤ CONFIG.maxQueriesSearch
    ∧ (expandQueries base true).head? = some base := by
  have hL : lettersStr.map (fun c => base ++ " " ++ c)
      = (lettersStr.map (fun c => " " ++ c)).map (fun s => base ++ s) := by
    rw [List.map_map]
    apply List.map_congr_left
    intro c _
    simp only [Function.comp_apply]
    exact String.append_assoc base " " c
  have hD : digitsStr.map (fun d => base ++ " " ++ d)
      = (digitsStr.map (fun d => " " ++ d)).map (fun s => base ++ s) := by
    rw [List.map_map]
    apply List.map_congr_left
    intro d _
    simp only [Function.comp_apply]
    exact String.append_assoc base " " d
  have hlist : ([base ++ " movie", base ++ " series", base ++ " season"]
      ++ lettersStr.map (fun c => base ++ " " ++ c)
      ++ digitsStr.map (fun d => base ++ " " ++ d))
      = variationSuffixes.map (fun s => base ++ s) := by
    rw [hL, hD]
    simp only [variationSuffixes, List.map_append, List.map_cons, List.map_nil]
  have htrue : expandQueries base true =
      base :: variationSuffixes.map (fun s => base ++ s) := by
    unfold expandQueries
    rw [if_neg h, if_pos rfl, hlist]
    rw [dedupFirst_eq_self _ []
      (variation_list_nodup base) (fun x _ => List.not_mem_nil x)]
    apply List.take_of_length_le
    simp only [List.length_cons, List.length_map,
      show variationSuffixes.length = 39 from rfl]
    decide
  refine ⟨?_, htrue, ?_, ?_, ?_⟩
  · unfold expandQueries
    rw [if_neg h, if_neg Bool.false_ne_true]
    rw [dedupFirst_eq_self _ [] (by simp) (fun x _ => List.not_mem_nil x)]
    apply List.take_of_length_le
    rw [List.length_singleton]
    decide
  · rw [htrue]; exact variation_list_nodup base
  · rw [htrue]
    simp only [List.length_cons, List.length_map,
      show variationSuffixes.length = 39 from rfl]
    decide
  · rw [htrue]; rfl

/-- Witness for the C6 theorem at the concrete term `"x"`. -/
theorem expandQueries_nonempty_witness :
    expandQueries "x" false = ["x"]
    ∧ (expandQueries "x" true).length ≤ CONFIG.maxQueriesSearch := by
  refine ⟨(expandQueries_nonempty "x" (by decide)).1, ?_⟩
  exact (expandQueries_nonempty "x" (by decide)).2.2.2.1

theorem loadAll_full_last (fetch : String → Option RawSuggestion)
    (qs : List String) (b : Nat) (hne : qs ≠ []) (hb : qs.length ≤ b) :
    ((loadAll fetch qs b).2).getLast? = some 100 := by
  rw [loadAll_snd, Nat.min_eq_left hb]
  obtain ⟨m, hm⟩ : ∃ m, qs.length = m + 1 := by
    cases hq : qs with
    | nil => exact absurd hq hne
    | cons x xs => exact ⟨xs.length, by simp [hq]⟩
  rw [hm, List.range_succ, List.map_append, List.map_cons, List.map_nil,
    List.getLast?_concat]
  exact congrArg some (pctRound_self (by omega))

theorem expandQueries_empty (v : Bool) :
    expandQueries "" v = expandQueries "" false := by
  cases v <;> rfl

/-- Claim C1 (amended): within one `loadAll` call the percentages handed
to the progress callback are non-decreasing, and when the global deadline
never cancels (every query is claimed, `queries.length ≤ budget`) the
final emitted percentage is 100.  If the deadline cancels first, the run
ends early and the final percentage can be below 100 (see the
counterexample). -/
theorem loadAll_progress (fetch : String → Option RawSuggestion)
    (qs : List String) (b : Nat) :
    ((loadAll fetch qs b).2).Pairwise (· ≤ ·)
    ∧ (qs ≠ [] → qs.length ≤ b →
        ((loadAll fetch qs b).2).getLast? = some 100) := by
  constructor
  · rw [loadAll_snd]
    refine List.pairwise_map.mpr ?_
    exact (List.pairwise_lt_range _).imp
      (fun hlt => pctRound_mono _ (by omega))
  · exact loadAll_full_last fetch qs b

/-- Witness for the C1 theorem on the single query list `["a"]` with no
cancellation. -/
theorem loadAll_progress_witness :
    ((loadAll (fun _ => none) ["a"] 1).2).Pairwise (· ≤ ·)
    ∧ ((loadAll (fun _ => none) ["a"] 1).2).getLast? = some 100 := by
  refine ⟨(loadAll_progress (fun _ => none) ["a"] 1).1, ?_⟩
  exact (loadAll_progress (fun _ => none) ["a"] 1).2 (by decide) (by decide)

/-- Claim C1 counterexample: under the default configuration, a
34-query discovery run whose fetches all take their full per-request
timeout is cancelled by the global deadline after 30 claims (lockstep
timing), and the final emitted progress percentage is 88, not 100. -/
theorem loadAll_progress_counterexample :
    lockstepClaims (expandQueries "" false).length CONFIG.concurrency
      CONFIG.perRequestTimeoutMs CONFIG.interRequestDelayMs CONFIG.globalTimeoutMs = 30
    ∧ (expandQueries "" false).length = 34
    ∧ (loadAll (fun _ => none) (expandQueries "" false) 30).2.getLast? = some 88
    ∧ some (88 : Nat) ≠ some 100 := by
  decide

/-- Claim C7: the session controller is single-flight: a submit arriving
while `busy` is set returns at once with the whole page state (status,
results, catalog, storage) untouched; any other submit raises the flag on
entry and the `finally` block lowers it on every exit path, so the traced
flag sequence is exactly idle → busy → idle. -/
theorem onSubmit_single_flight (st : AppState) (inp : DomInput)
    (out : PipelineOutcome) (now : Nat) :
    (st.busy = true → onSubmitTrace st inp out now = [st])
    ∧ (st.busy = false →
        (onSubmitTrace st inp out now).map (fun s => s.busy) = [true, false]) := by
  constructor
  · intro h
    simp [onSubmitTrace, h]
  · intro h
    cases out <;> simp [onSubmitTrace, h]

/-- Witness for the C7 theorem: a busy state is left untouched, an idle
state traces busy-then-idle. -/
theorem onSubmit_single_flight_witness :
    (onSubmitTrace
        { busy := true, status := "s", resultsHtml := "r"
        , lastJSON := { len := 0, titles := [] }
        , store := { lastResults := none, lastMeta := none, history := [] } }
        { q := "a", variations := false, images := false }
        PipelineOutcome.exn 0 =
      [{ busy := true, status := "s", resultsHtml := "r"
       , lastJSON := { len := 0, titles := [] }
       , store := { lastResults := none, lastMeta := none, history := [] } }])
    ∧ ((onSubmitTrace
        { busy := false, status := "s", resultsHtml := "r"
        , lastJSON := { len := 0, titles := [] }
        , store := { lastResults := none, lastMeta := none, history := [] } }
        { q := "a", variations := false, images := false }
        PipelineOutcome.exn 0).map (fun s => s.busy) = [true, false]) := by
  constructor
  · exact (onSubmit_single_flight _ _ _ _).1 rfl
  · exact (onSubmit_single_flight _ _ _ _).2 rfl

/-- Claim C3 (amended): an empty submitted term (discovery mode) with
every fetch resolving null yields a session that ends with a catalog of
count 0 and the completion status line `Found 0 unique titles (capped)`
(not the failure status); the progress sequence ends at 100 whenever the
global deadline lets every discovery query be claimed, but under the
default configuration the lockstep all-timeout timing only claims 30 of
the 34 discovery queries, so the final progress value is 88 (see the
counterexample). -/
theorem discovery_all_timeout (st : AppState) (v i : Bool) (now b : Nat)
    (hb : st.busy = false) :
    ((onSubmitTrace st { q := "", variations := v, images := i }
        (PipelineOutcome.ok (fun _ => none) b) now).getLast?.map
          (fun s => (s.lastJSON.len, s.status)) = some (0, statusFound 0))
    ∧ ((expandQueries "" v).length ≤ b →
        (loadAll (fun _ => none) (expandQueries "" v) b).2.getLast? = some 100)
    ∧ (b = 30 →
        (loadAll (fun _ => none) (expandQueries "" v) b).2.getLast? = some 88) := by
  refine ⟨?_, ?_, ?_⟩
  · have hres : (loadAll (fun _ => (none : Option RawSuggestion))
        (expandQueries (trimJS "") v) b).1 = [] := loadAllGo_fst_none _ _ _ _
    simp only [onSubmitTrace, hb, Bool.false_eq_true, if_false]
    simp only [List.getLast?, Option.map_some]
    rw [hres, normalize_nil]
    simp [List.getLast]
  · intro hlen
    exact loadAll_full_last _ _ _ (by rw [expandQueries_empty]; decide) hlen
  · intro hb30
    subst hb30
    rw [expandQueries_empty]
    decide

/-- Witness for the C3 theorem: a concrete idle state, discovery input and
a budget of 34 (no cancellation) yield count 0, the completion status and
final progress 100. -/
theorem discovery_all_timeout_witness :
    ((onSubmitTrace
        { busy := false, status := "", resultsHtml := ""
        , lastJSON := { len := 0, titles := [] }
        , store := { lastResults := none, lastMeta := none, history := [] } }
        { q := "", variations := false, images := false }
        (PipelineOutcome.ok (fun _ => none) 34) 0).getLast?.map
          (fun s => (s.lastJSON.len, s.status)) = some (0, statusFound 0))
    ∧ (loadAll (fun _ => none) (expandQueries "" false) 34).2.getLast? = some 100 := by
  refine ⟨(discovery_all_timeout
      { busy := false, status := "", resultsHtml := ""
      , lastJSON := { len := 0, titles := [] }
      , store := { lastResults := none, lastMeta := none, history := [] } }
      false false 0 34 rfl).1, ?_⟩
  exact (discovery_all_timeout
      { busy := false, status := "", resultsHtml := ""
      , lastJSON := { len := 0, titles := [] }
      , store := { lastResults := none, lastMeta := none, history := [] } }
      false false 0 34 rfl).2.1 (by decide)

/-- Claim C3 counterexample: under the default configuration with every
fetch timing out, the discovery session still ends with count 0 and the
completion status, but the global deadline stops claims after 30 of the
34 queries (lockstep timing), so the final progress value is 88, not
100. -/
theorem discovery_all_timeout_counterexample :
    lockstepClaims (expandQueries "" false).length CONFIG.concurrency
        CONFIG.perRequestTimeoutMs CONFIG.interRequestDelayMs CONFIG.globalTimeoutMs = 30
    ∧ ((onSubmitTrace
        { busy := false, status := "", resultsHtml := ""
        , lastJSON := { len := 0, titles := [] }
        , store := { lastResults := none, lastMeta := none, history := [] } }
        { q := "", variations := false, images := false }
        (PipelineOutcome.ok (fun _ => none) 30) 0).getLast?.map
          (fun s => (s.lastJSON.len, s.status)) = some (0, statusFound 0))
    ∧ (loadAll (fun _ => none) (expandQueries "" false) 30).2.getLast? = some 88
    ∧ (88 : Nat) ≠ 100 := by
  refine ⟨by decide, ?_, by decide, by decide⟩
  have hres : (loadAll (fun _ => (none : Option RawSuggestion))
      (expandQueries (trimJS "") false) 30).1 = [] := loadAllGo_fst_none _ _ _ _
  simp only [onSubmitTrace, Bool.false_eq_true, if_false]
  simp only [List.getLast?, Option.map_some]
  rw [hres, normalize_nil]
  simp [List.getLast]

/-- Claim C4: for every raw item list and images flag, the catalog's
entries have pairwise distinct ids, every entry's id passed the `tt`
prefix test (so none is missing or unprefixed), the entries are sorted
ascending by rank key with null ranks last, the entry kept for an id is
the first occurrence of that id in the pre-dedup input order (the `find?`
conjunct), and entries sharing a rank key keep their pre-sort relative
order (stability). -/
theorem normalize_entries_spec (items : List (Option RawItem)) (w : Bool) :
    (normalize items w).titles.Pairwise (fun a b => a.id ≠ b.id)
    ∧ (∀ e ∈ (normalize items w).titles, startsWithTT e.id = true)
    ∧ (normalize items w).titles.Pairwise (fun a b => rankKey a ≤ rankKey b)
    ∧ (normalize items w).titles.Pairwise (fun a b => a.rank = none → b.rank = none)
    ∧ (∀ e ∈ (normalize items w).titles,
        (preEntries w items).find? (fun a => a.id == e.id) = some e)
    ∧ (∀ r : WithTop Int,
        (normalize items w).titles.filter (fun e => decide (rankKey e = r)) =
          (dedupById (preEntries w items)).filter (fun e => decide (rankKey e = r))) := by
  refine ⟨titles_pairwise_id items w, ?_, ?_, ?_, ?_, ?_⟩
  · intro e he
    exact (titles_shape items w e he).1
  · refine (titles_sorted items w).imp ?_
    intro a b hle
    simpa [rankLe, decide_eq_true_eq] using hle
  · refine (titles_sorted items w).imp ?_
    intro a b hle hnone
    have hk : rankKey a ≤ rankKey b := by
      simpa [rankLe, decide_eq_true_eq] using hle
    rw [(rankKey_eq_top_iff a).mpr hnone] at hk
    exact (rankKey_eq_top_iff b).mp (top_le_iff.mp hk)
  · intro e he
    exact find?_of_mem_dedupByIdGo _ [] e (mem_titles_mem_dedup he)
  · intro r
    rw [normalize_titles_def]
    exact mergeSort_filter_rank _ r

/-- Witness for the C4 theorem: on a concrete one-item input, the single
entry's id passes the prefix test and `find?` locates it as the first
occurrence. -/
theorem normalize_entries_spec_witness :
    startsWithTT "tt0000001" = true
    ∧ (preEntries false
        [some { id := some "tt0000001", l := some "A", q := none, y := none
              , rank := some 1, i := none }]).find?
        (fun a => a.id == "tt0000001") =
      some { id := "tt0000001", title := "A", kind := "", year := none
           , rank := some 1
           , href := "https://www.imdb.com/title/tt0000001/"
           , image_url := none, image_width := none, image_height := none } := by
  have hmem : ({ id := "tt0000001", title := "A", kind := "", year := none
                 , rank := some 1
                 , href := "https://www.imdb.com/title/tt0000001/"
                 , image_url := none, image_width := none, image_height := none } : Entry) ∈
      (normalize
        [some { id := some "tt0000001", l := some "A", q := none, y := none
              , rank := some 1, i := none }] false).titles := by
    simp [normalize, preEntries, List.filterMap, entryOfItem, dedupById, dedupByIdGo,
      List.mergeSort_singleton, hrefOf]
  constructor
  · exact (normalize_entries_spec
      [some { id := some "tt0000001", l := some "A", q := none, y := none
            , rank := some 1, i := none }] false).2.1 _ hmem
  · exact (normalize_entries_spec
      [some { id := some "tt0000001", l := some "A", q := none, y := none
            , rank := some 1, i := none }] false).2.2.2.2.1 _ hmem

theorem catalog_ext {a b : Catalog} (h1 : a.len = b.len)
    (h2 : a.titles = b.titles) : a = b := by
  cases a
  cases b
  simp_all

/-- Claim C5: normalize is idempotent: mapping the entries of a
normalized catalog back to their raw equivalents and normalizing again
reproduces the same catalog. -/
theorem normalize_idempotent (items : List (Option RawItem)) (w : Bool) :
    normalize ((normalize items w).titles.map (fun e => some (rawEquiv e))) w
      = normalize items w := by
  have h1 : preEntries w ((normalize items w).titles.map (fun e => some (rawEquiv e)))
      = (normalize items w).titles :=
    preEntries_map_rawEquiv _ (titles_shape items w)
  have h2 : dedupById ((normalize items w).titles) = (normalize items w).titles :=
    dedupByIdGo_eq_self _ [] (titles_pairwise_id items w)
      (fun x _ => List.not_mem_nil x.id)
  have h3 : ((normalize items w).titles).mergeSort rankLe = (normalize items w).titles :=
    List.mergeSort_of_sorted (titles_sorted items w)
  have hT : (normalize ((normalize items w).titles.map (fun e => some (rawEquiv e))) w).titles
      = (normalize items w).titles := by
    rw [normalize_titles_def, h1, h2, h3]
  refine catalog_ext ?_ hT
  show (normalize _ w).titles.length = (normalize items w).titles.length
  rw [hT]

end ImdbApp
